import Mathlib

/-!
Shallow embedding of the `meta` runtime-reflection library
(`src/include/meta/meta.h`, `src/include/meta/meta_detail.h`): a per-class
registry (`MetaBuilder`) maps property names to typed getter/setter pairs that
are invoked through a type-erased interface, with string conversion
(`detail::MetaConverter`) and inheritance-aware name resolution.

Stateful C++ is modelled by explicit state passing: an object of a reflectable
class is a value of a state type `σ`; a getter `const T& (C::*)() const` becomes
`σ → T` and a setter `void (C::*)(const T&)` becomes `T → σ → σ`.  The virtual
`bool get(MetaObject*, std::string*)` entry point becomes
`σ → String → Bool × String × σ` (result flag, the out-parameter, the object
state after the call).  `size_t` arithmetic is `Nat`/`Int` with explicit
reduction modulo `2 ^ 64`.
-/

set_option autoImplicit false

namespace meta

/-- UTF-8 encoding of one character, as the list of its byte values.
`std::string_view` indexing in the source reads raw bytes, so the hash below is
computed over the UTF-8 bytes of the name. -/
def charUtf8 (c : Char) : List Nat :=
  let n := c.toNat
  if n < 0x80 then [n]
  else if n < 0x800 then
    [0xC0 ||| (n >>> 6), 0x80 ||| (n &&& 0x3F)]
  else if n < 0x10000 then
    [0xE0 ||| (n >>> 12), 0x80 ||| ((n >>> 6) &&& 0x3F), 0x80 ||| (n &&& 0x3F)]
  else
    [0xF0 ||| (n >>> 18), 0x80 ||| ((n >>> 12) &&& 0x3F),
      0x80 ||| ((n >>> 6) &&& 0x3F), 0x80 ||| (n &&& 0x3F)]

/-- The bytes of a string, in order. -/
def stringBytes (s : String) : List Nat :=
  s.data.foldr (fun c acc => charUtf8 c ++ acc) []

/-- The value of a byte read through `char`, which is signed on the source's
platform: bytes at or above 128 are negative. -/
def charValue (b : Nat) : Int :=
  if b < 128 then (b : Int) else (b : Int) - 256

/-- One step of the hash loop `hash += 33 * name[i]`: the product is `int`
arithmetic (no overflow possible for one byte), then the sum wraps around in
`size_t`, i.e. modulo `2 ^ 64`. -/
def hashStep (h : Nat) (b : Nat) : Nat :=
  (((h : Int) + 33 * charValue b).emod (2 ^ 64)).toNat

/-- `meta::hashName` (meta.h lines 40-51): `5381` for the empty string,
otherwise the first byte (read as `unsigned char`) followed by
`hash += 33 * name[i]` over the remaining bytes. -/
def hashName (s : String) : Nat :=
  match stringBytes s with
  | [] => 5381
  | b :: rest => rest.foldl hashStep b

/-- The value types the library's converters cover as used by the registry:
`std::string`, `int`, `bool` (the editor kinds are `{String, Integer, Bool}`). -/
inductive Ty : Type where
  | tstr
  | tint
  | tbool
deriving DecidableEq

/-- Lean type denoted by each value type; C++ `int` is carried as `Int`, with
its 32-bit range enforced where the stream semantics clamp. -/
@[reducible] def Ty.denote : Ty → Type
  | .tstr => String
  | .tint => Int
  | .tbool => Bool

/-- `std::numeric_limits<int>::max()`. -/
def intMax : Int := 2 ^ 31 - 1

/-- `std::numeric_limits<int>::min()`. -/
def intMin : Int := -(2 ^ 31)

/-- Whitespace for the default-locale `isspace` used by stream extraction:
space (32), \t (9), \n (10), \v (11), \f (12), \r (13). -/
def isStreamSpace (c : Char) : Bool :=
  c.toNat = 32 || c.toNat = 9 || c.toNat = 10 || c.toNat = 11 || c.toNat = 12 || c.toNat = 13

/-- Decimal digit test for stream extraction. -/
def isDigitChar (c : Char) : Bool :=
  48 ≤ c.toNat && c.toNat ≤ 57

/-- Decimal digit characters of a natural number, most significant first
(the rendering `operator<<` produces). -/
def natDecimal (n : Nat) : List Char :=
  if h : n < 10 then [Char.ofNat (48 + n)]
  else natDecimal (n / 10) ++ [Char.ofNat (48 + n % 10)]
decreasing_by exact Nat.div_lt_self (by omega) (by omega)

/-- `std::stringstream << int` then `.str()`: minus sign for negatives, then
the decimal digits. -/
def intToString (v : Int) : String :=
  if v < 0 then String.mk ('-' :: natDecimal (-v).toNat)
  else String.mk (natDecimal v.toNat)

/-- Accumulate a run of leading decimal digits: returns the value read so far
and how many digit characters were consumed. -/
def readDigits (acc : Nat) (cnt : Nat) : List Char → Nat × Nat
  | [] => (acc, cnt)
  | c :: rest =>
    if isDigitChar c then readDigits (acc * 10 + (c.toNat - 48)) (cnt + 1) rest
    else (acc, cnt)

/-- The optional-sign step of `num_get`: a leading minus selects a negative
sign, a leading plus is consumed, anything else leaves the characters as they
are. -/
def signSplit (cs : List Char) : Int × List Char :=
  match cs with
  | [] => (1, [])
  | c :: rest =>
    if c = '-' then (-1, rest)
    else if c = '+' then (1, rest)
    else (1, c :: rest)

/-- The out-of-range clamping of `num_get` (C++11): a value beyond `int`'s
range stores `INT_MAX`/`INT_MIN`. -/
def clampInt (v : Int) : Int :=
  if v > intMax then intMax else if v < intMin then intMin else v

/-- The digit-accumulation step of `num_get` applied after the sign: no digit
at all stores `0`, otherwise the signed accumulated value, clamped to `int`'s
range. -/
def parseIntAfterSign (sc : Int × List Char) : Int :=
  if (readDigits 0 0 sc.2).2 = 0 then 0
  else clampInt (sc.1 * ((readDigits 0 0 sc.2).1 : Int))

/-- `std::stringstream >> int` (C++11 `num_get`): skip leading whitespace, an
optional sign, then decimal digits.  No digits stores `0`; a value out of
`int` range stores `INT_MAX`/`INT_MIN`.  The stream's failure flag is
discarded by the caller (`FromString` returns `true` regardless). -/
def parseIntStream (s : String) : Int :=
  parseIntAfterSign (signSplit (s.data.dropWhile isStreamSpace))

/-- `std::stringstream >> std::string`: skip leading whitespace, then read up
to the next whitespace; the target is erased first, so with no token the
result is the empty string. -/
def extractToken (s : String) : String :=
  String.mk ((s.data.dropWhile isStreamSpace).takeWhile (fun c => !isStreamSpace c))

/-- `detail::MetaConverter<T>::ToString` (meta_detail.h): the generic template
streams the value with `operator<<` (identity for `std::string`, decimal for
`int`), the `bool` specialization emits exactly "true"/"false".  All return
`true`. -/
def MetaConverter.ToString : (τ : Ty) → τ.denote → Bool × String
  | .tstr, v => (true, v)
  | .tint, v => (true, intToString v)
  | .tbool, v => (true, if v then "true" else "false")

/-- `detail::MetaConverter<T>::FromString`: the generic template streams with
`operator>>` (token extraction for `std::string`, `parseIntStream` for `int`),
the `bool` specialization maps "true" and "1" to `true` and everything else to
`false`.  Every branch returns `true`: the stream's failure state is never
inspected. -/
def MetaConverter.FromString : (τ : Ty) → String → Bool × τ.denote
  | .tstr, s => (true, extractToken s)
  | .tint, s => (true, parseIntStream s)
  | .tbool, s => (true, s == "true" || s == "1")

/-- `meta::Property<C, T>` (meta.h lines 120-158): a getter (required, the
system does not allow a null getter) and an optional setter; absent setter
means read-only. -/
structure TypedProperty (σ : Type) (τ : Ty) : Type where
  getter : σ → τ.denote
  setter : Option (τ.denote → σ → σ)

/-- `Property::isReadOnly` (meta.h line 152): `!setter`. -/
def TypedProperty.isReadOnly {σ : Type} {τ : Ty} (p : TypedProperty σ τ) : Bool :=
  p.setter.isNone

/-- `Invoker<PropertyType>::get` (meta.h lines 94-102): invoke the getter
(a `const` member function, so the object state is untouched) and convert the
result; the conversion overwrites the out-parameter. -/
def Invoker.get {σ : Type} {τ : Ty} (p : TypedProperty σ τ) (s : σ) : Bool × String × σ :=
  let x := p.getter s
  let r := MetaConverter.ToString τ x
  (r.1, r.2, s)

/-- `Invoker<PropertyType>::set` (meta.h lines 104-117): fail if there is no
setter; otherwise parse the text and, when `FromString` reports success (it
always does), call the setter with the parsed value and return `true`. -/
def Invoker.set {σ : Type} {τ : Ty} (p : TypedProperty σ τ) (s : σ) (value : String) : Bool × σ :=
  match p.setter with
  | none => (false, s)
  | some st =>
    let r := MetaConverter.FromString τ value
    if r.1 then (true, st r.2 s) else (false, s)

/-- `meta::PropertyEditorType` (meta.h lines 160-164). -/
inductive PropertyEditorType : Type where
  | String
  | Integer
  | Bool
deriving DecidableEq

/-- `meta::MetaEntry` (meta.h lines 166-177): name, description, editor type
and the owned property.  The `std::shared_ptr<PropertyBase>` always holds a
`Property<C, T>` built by `addProperty`, modelled as a dependent pair of the
value type and the typed property. -/
structure MetaEntry (σ : Type) : Type where
  name : String
  description : String
  editorType : PropertyEditorType
  prop : (τ : Ty) × TypedProperty σ τ

/-- Dispatch of the virtual `PropertyBase::get` to `Invoker::get` through the
stored invoker pointer (`Property::get`, meta.h lines 142-145). -/
def MetaEntry.getValue {σ : Type} (e : MetaEntry σ) (s : σ) : Bool × String × σ :=
  Invoker.get e.prop.2 s

/-- Dispatch of the virtual `PropertyBase::set` to `Invoker::set`
(`Property::set`, meta.h lines 147-150). -/
def MetaEntry.setValue {σ : Type} (e : MetaEntry σ) (s : σ) (value : String) : Bool × σ :=
  Invoker.set e.prop.2 s value

mutual
/-- `meta::MetaBuilder` (meta.h lines 179-244): the own-entry table
`std::unordered_map<size_t, MetaEntry>` keyed by `hashName`, plus the ordered
list of base registries `std::vector<const MetaBuilder*>`. -/
inductive MetaBuilder (σ : Type) : Type where
  | mk (properties : List (Nat × MetaEntry σ)) (bases : BaseList σ)

/-- The `std::vector<const MetaBuilder*>` of base registries, in declaration
order. -/
inductive BaseList (σ : Type) : Type where
  | nil
  | cons (b : MetaBuilder σ) (rest : BaseList σ)
end

/-- The own-entry table of a registry. -/
def MetaBuilder.properties {σ : Type} : MetaBuilder σ → List (Nat × MetaEntry σ)
  | .mk props _ => props

/-- The base registries of a registry, in declaration order. -/
def MetaBuilder.bases {σ : Type} : MetaBuilder σ → BaseList σ
  | .mk _ bases => bases

/-- `MetaBuilder{}`: empty table, no bases. -/
def MetaBuilder.empty {σ : Type} : MetaBuilder σ := .mk [] .nil

/-- `std::unordered_map::find` by key: the table holds at most one entry per
key, so search order is immaterial. -/
def mapFind {σ : Type} (k : Nat) : List (Nat × MetaEntry σ) → Option (MetaEntry σ)
  | [] => none
  | (k2, e) :: rest => if k2 = k then some e else mapFind k rest

/-- `std::unordered_map::insert`: inserts only when the key is not already
present; an existing entry under the key is left untouched. -/
def mapInsert {σ : Type} (k : Nat) (e : MetaEntry σ) (m : List (Nat × MetaEntry σ)) :
    List (Nat × MetaEntry σ) :=
  if (mapFind k m).isSome then m else m ++ [(k, e)]

/-- `std::vector::push_back` on the base list. -/
def BaseList.push {σ : Type} : BaseList σ → MetaBuilder σ → BaseList σ
  | .nil, b => .cons b .nil
  | .cons x rest, b => .cons x (rest.push b)

/-- `MetaBuilder::addBase` (meta.h lines 184-187): append the base registry to
the ordered base list. -/
def MetaBuilder.addBase {σ : Type} : MetaBuilder σ → MetaBuilder σ → MetaBuilder σ
  | .mk props bases, b => .mk props (bases.push b)

/-- `MetaBuilder::addProperty` (meta.h lines 189-209, both overloads: the
getter-only overload constructs `Property<C, T>(getter, nullptr)`, i.e.
`setter = none`): insert a new entry into the own table under `hashName name`.
`std::unordered_map::insert` keeps an existing entry under the same key. -/
def MetaBuilder.addProperty {σ : Type} (r : MetaBuilder σ) (name description : String)
    (editorType : PropertyEditorType) (τ : Ty) (getter : σ → τ.denote)
    (setter : Option (τ.denote → σ → σ)) : MetaBuilder σ :=
  match r with
  | .mk props bases =>
      .mk (mapInsert (hashName name) ⟨name, description, editorType, ⟨τ, getter, setter⟩⟩ props)
        bases

mutual
/-- `MetaBuilder::getProperty` (meta.h lines 211-224): look the hash of the
name up in the own table; if absent, query each base in declared order and
return the first hit; `none` when neither self nor any base has it. -/
def MetaBuilder.getProperty {σ : Type} : MetaBuilder σ → String → Option (MetaEntry σ)
  | .mk props bases, name =>
    match mapFind (hashName name) props with
    | some e => some e
    | none => getPropertyBases bases name

/-- The `for (auto base : m_bases)` loop of `getProperty`: first base with a
hit wins. -/
def getPropertyBases {σ : Type} : BaseList σ → String → Option (MetaEntry σ)
  | .nil, _ => none
  | .cons b rest, name =>
    match b.getProperty name with
    | some e => some e
    | none => getPropertyBases rest name
end

/-- `std::set<std::string>::insert`: add the name only when it is not already
in the set.  Only membership and absence of duplicates matter for the
specification, so the set is carried as a duplicate-free list. -/
def setInsert (x : String) (s : List String) : List String :=
  if x ∈ s then s else s ++ [x]

mutual
/-- `MetaBuilder::getListOfProperties` (meta.h lines 226-236): insert every
own entry's name into the accumulating set, then recurse into each base. -/
def MetaBuilder.getListOfProperties {σ : Type} : MetaBuilder σ → List String → List String
  | .mk props bases, outNames =>
    listBases bases (props.foldl (fun acc kv => setInsert kv.2.name acc) outNames)

/-- The `for (const auto& base : m_bases)` loop of `getListOfProperties`. -/
def listBases {σ : Type} : BaseList σ → List String → List String
  | .nil, outNames => outNames
  | .cons b rest, outNames => listBases rest (b.getListOfProperties outNames)
end

mutual
/-- A name is visible on a registry when it is the stored name of an own entry
or, recursively, visible on some base. -/
def visibleName {σ : Type} : MetaBuilder σ → String → Bool
  | .mk props bases, n => props.any (fun kv => kv.2.name = n) || visibleNameBases bases n

/-- `visibleName` over the base list. -/
def visibleNameBases {σ : Type} : BaseList σ → String → Bool
  | .nil, _ => false
  | .cons b rest, n => visibleName b n || visibleNameBases rest n
end

mutual
/-- A hash key is visible on a registry when the own table holds it or,
recursively, some base does: exactly the keys `getProperty` can resolve. -/
def hashVisible {σ : Type} : MetaBuilder σ → Nat → Bool
  | .mk props bases, k => (mapFind k props).isSome || hashVisibleBases bases k

/-- `hashVisible` over the base list. -/
def hashVisibleBases {σ : Type} : BaseList σ → Nat → Bool
  | .nil, _ => false
  | .cons b rest, k => hashVisible b k || hashVisibleBases rest k
end

/-- The `get` of `DEFINE_META_OBJECT` (meta.h lines 260-267): resolve the name
through the class's registry; `false` (out-parameter untouched) when absent,
otherwise the entry's type-erased get. -/
def metaGet {σ : Type} (r : MetaBuilder σ) (s : σ) (name : String) (outValue : String) :
    Bool × String × σ :=
  match r.getProperty name with
  | none => (false, outValue, s)
  | some e => e.getValue s

/-- The `set` of `DEFINE_META_OBJECT` (meta.h lines 268-274): resolve the name
through the class's registry; `false` when absent, otherwise the entry's
type-erased set. -/
def metaSet {σ : Type} (r : MetaBuilder σ) (s : σ) (name : String) (value : String) :
    Bool × σ :=
  match r.getProperty name with
  | none => (false, s)
  | some e => e.setValue s value

/-! Concrete registries mirroring the demo classes of `src/tests/tests.cpp`,
used as concrete inputs for the theorems below.  `AnotherObj` derives from
`Obj`, so its state carries the `Obj` fields; the base registry's accessors
operate on those fields, exactly as the registered `Obj` member-function
pointers do when invoked on an `AnotherObj`. -/

/-- State of the demo class `Obj`: `m_name` (read-only property "name") and
`m_count` (read-write property "count"). -/
structure ObjState : Type where
  m_name : String
  m_count : Int
deriving DecidableEq

/-- The static registry of `Obj` (tests.cpp lines 48-52). -/
def objProperties : MetaBuilder ObjState :=
  (((MetaBuilder.empty).addProperty "name" "name description" .String .tstr
      (fun s => s.m_name) none).addProperty
    "count" "count description" .Integer .tint
      (fun s => s.m_count) (some fun v s => { s with m_count := v }))

/-- State of the demo class `AnotherObj`, a subclass of `Obj` adding
`m_visible` (read-write property "visible"). -/
structure AnotherObjState : Type where
  m_name : String
  m_count : Int
  m_visible : Bool
deriving DecidableEq

/-- The registry of `Obj` as it acts on an `AnotherObj` instance: the same
entries, whose member-function pointers read and write the `Obj` subobject. -/
def objPropertiesOnAnother : MetaBuilder AnotherObjState :=
  (((MetaBuilder.empty).addProperty "name" "name description" .String .tstr
      (fun s => s.m_name) none).addProperty
    "count" "count description" .Integer .tint
      (fun s => s.m_count) (some fun v s => { s with m_count := v }))

/-- The static registry of `AnotherObj` (tests.cpp lines 73-77): base `Obj`,
plus the read-write bool property "visible". -/
def anotherObjProperties : MetaBuilder AnotherObjState :=
  (((MetaBuilder.empty).addBase objPropertiesOnAnother).addProperty
    "visible" "visible description" .String .tbool
      (fun s => s.m_visible) (some fun v s => { s with m_visible := v }))

/-- The per-type condition under which one `toString`/`fromString` round trip
is lossless: `bool` always; `int` for values in `int`'s range (any C++ `int`
is); a string exactly when it equals its own first whitespace-delimited
token. -/
def valueRoundTrips : (τ : Ty) → τ.denote → Prop
  | .tstr, v => extractToken v = v
  | .tint, v => intMin ≤ v ∧ v ≤ intMax
  | .tbool, _ => True

/-- A registry that registers the name "count" twice, with distinguishable
descriptions (and a setter only the second time). -/
def dupRegistry : MetaBuilder ObjState :=
  ((MetaBuilder.empty).addProperty "count" "first" .Integer .tint
      (fun s => s.m_count) none).addProperty
    "count" "second" .Integer .tint
      (fun s => s.m_count) (some fun v s => { s with m_count := v })

/-- A registry whose only property is named "abc"; "acb" is a different name
with the same `hashName` (the hash adds the trailing bytes commutatively). -/
def abcRegistry : MetaBuilder ObjState :=
  (MetaBuilder.empty).addProperty "abc" "abc description" .String .tstr
    (fun s => s.m_name) none

/-- A registry with a read-write string property "name", used to settle C4:
the system accepts string-typed read-write properties, and stream extraction
truncates their text at whitespace. -/
def rwNameRegistry : MetaBuilder ObjState :=
  (MetaBuilder.empty).addProperty "name" "name description" .String .tstr
    (fun s => s.m_name) (some fun v s => { s with m_name := v })

/-- A derived registry that shadows the base's "count" with its own entry and
declares two bases, used to witness C5. -/
def shadowRegistry : MetaBuilder AnotherObjState :=
  (((MetaBuilder.empty).addBase objPropertiesOnAnother).addBase
      anotherObjProperties).addProperty
    "count" "shadowed count" .Integer .tint (fun s => s.m_count + 1) none

/-! Helper lemmas shared by the claim theorems. -/

/-- Every branch of `MetaConverter::FromString` returns `true`: the stream's
failure state is never propagated. -/
theorem fromString_fst (τ : Ty) (text : String) :
    (MetaConverter.FromString τ text).1 = true := by
  cases τ <;> rfl

/-- Every branch of `MetaConverter::ToString` returns `true`. -/
theorem toString_fst (τ : Ty) (v : τ.denote) :
    (MetaConverter.ToString τ v).1 = true := by
  cases τ <;> rfl

mutual
/-- `getProperty` looks names up by `hashName` alone, so two names with equal
hashes resolve identically on every registry. -/
theorem getProperty_ext {σ : Type} : (r : MetaBuilder σ) → (a b : String) →
    hashName a = hashName b → r.getProperty a = r.getProperty b
  | .mk props bases, a, b, h => by
    simp only [MetaBuilder.getProperty, h]
    cases mapFind (hashName b) props with
    | some e => rfl
    | none => exact getPropertyBases_ext bases a b h

/-- `getProperty_ext` over the base list. -/
theorem getPropertyBases_ext {σ : Type} : (bs : BaseList σ) → (a b : String) →
    hashName a = hashName b → getPropertyBases bs a = getPropertyBases bs b
  | .nil, _, _, _ => rfl
  | .cons bb rest, a, b, h => by
    simp only [getPropertyBases]
    rw [getProperty_ext bb a b h, getPropertyBases_ext rest a b h]
end

mutual
/-- `getProperty` fails exactly when the name's hash is absent from the own
table and, recursively, from every base's table. -/
theorem getProperty_none_iff {σ : Type} : (r : MetaBuilder σ) → (n : String) →
    (r.getProperty n = none ↔ hashVisible r (hashName n) = false)
  | .mk props bases, n => by
    simp only [MetaBuilder.getProperty, hashVisible]
    cases mapFind (hashName n) props with
    | some e => simp
    | none => simpa using getPropertyBases_none_iff bases n

/-- `getProperty_none_iff` over the base list. -/
theorem getPropertyBases_none_iff {σ : Type} : (bs : BaseList σ) → (n : String) →
    (getPropertyBases bs n = none ↔ hashVisibleBases bs (hashName n) = false)
  | .nil, _ => by simp [getPropertyBases, hashVisibleBases]
  | .cons bb rest, n => by
    simp only [getPropertyBases, hashVisibleBases]
    cases hb : bb.getProperty n with
    | some e =>
      have : hashVisible bb (hashName n) = true := by
        by_contra hf
        rw [(getProperty_none_iff bb n).2 (by simpa using hf)] at hb
        exact Option.noConfusion hb
      simp [this]
    | none =>
      have := (getProperty_none_iff bb n).1 hb
      simpa [this] using getPropertyBases_none_iff rest n
end

/-- Membership after a `std::set` insert. -/
theorem mem_setInsert (x y : String) (s : List String) :
    x ∈ setInsert y s ↔ x ∈ s ∨ x = y := by
  by_cases h : y ∈ s
  · simp only [setInsert, if_pos h]
    constructor
    · exact Or.inl
    · rintro (hx | rfl) <;> assumption
  · simp [setInsert, if_neg h]

/-- A `std::set` insert preserves freedom from duplicates. -/
theorem nodup_setInsert (y : String) (s : List String) (h : s.Nodup) :
    (setInsert y s).Nodup := by
  by_cases hy : y ∈ s
  · simpa [setInsert, if_pos hy]
  · simp only [setInsert, if_neg hy]
    exact List.Nodup.append h (List.nodup_singleton y) (by simpa using hy)

/-- Membership in the fold inserting every own entry's name. -/
theorem mem_foldl_setInsert {σ : Type} (props : List (Nat × MetaEntry σ))
    (out : List String) (x : String) :
    x ∈ props.foldl (fun acc kv => setInsert kv.2.name acc) out ↔
      x ∈ out ∨ props.any (fun kv => kv.2.name = x) = true := by
  induction props generalizing out with
  | nil => simp
  | cons kv rest ih =>
    simp only [List.foldl_cons, List.any_cons, ih, mem_setInsert]
    constructor
    · rintro ((hx | rfl) | hr)
      · exact Or.inl hx
      · exact Or.inr (by simp)
      · exact Or.inr (by simp [hr])
    · rintro (hx | hor)
      · exact Or.inl (Or.inl hx)
      · rcases (by simpa using hor) with heq | hr
        · exact Or.inl (Or.inr heq.symm)
        · exact Or.inr (by simpa using hr)

/-- The name-inserting fold preserves freedom from duplicates. -/
theorem nodup_foldl_setInsert {σ : Type} (props : List (Nat × MetaEntry σ))
    (out : List String) (h : out.Nodup) :
    (props.foldl (fun acc kv => setInsert kv.2.name acc) out).Nodup := by
  induction props generalizing out with
  | nil => simpa
  | cons kv rest ih => exact ih _ (nodup_setInsert _ _ h)

mutual
/-- A name lands in `getListOfProperties` exactly when it was already in the
destination set or is visible on the registry (own entry or, recursively, a
base's). -/
theorem mem_getListOfProperties {σ : Type} :
    (r : MetaBuilder σ) → (out : List String) → (x : String) →
    (x ∈ r.getListOfProperties out ↔ x ∈ out ∨ visibleName r x = true)
  | .mk props bases, out, x => by
    simp only [MetaBuilder.getListOfProperties, visibleName]
    rw [mem_listBases bases _ x, mem_foldl_setInsert]
    simp [or_assoc]

/-- `mem_getListOfProperties` over the base list. -/
theorem mem_listBases {σ : Type} :
    (bs : BaseList σ) → (out : List String) → (x : String) →
    (x ∈ listBases bs out ↔ x ∈ out ∨ visibleNameBases bs x = true)
  | .nil, out, x => by simp [listBases, visibleNameBases]
  | .cons bb rest, out, x => by
    simp only [listBases, visibleNameBases]
    rw [mem_listBases rest _ x, mem_getListOfProperties bb out x]
    simp [or_assoc]
end

mutual
/-- `getListOfProperties` never produces a duplicate name. -/
theorem nodup_getListOfProperties {σ : Type} :
    (r : MetaBuilder σ) → (out : List String) → out.Nodup →
    (r.getListOfProperties out).Nodup
  | .mk props bases, out, h => by
    simp only [MetaBuilder.getListOfProperties]
    exact nodup_listBases bases _ (nodup_foldl_setInsert props out h)

/-- `nodup_getListOfProperties` over the base list. -/
theorem nodup_listBases {σ : Type} :
    (bs : BaseList σ) → (out : List String) → out.Nodup → (listBases bs out).Nodup
  | .nil, _, h => h
  | .cons bb rest, out, h =>
    nodup_listBases rest _ (nodup_getListOfProperties bb out h)
end

/-- Code of a decimal digit character. -/
theorem toNat_digit_char (d : Nat) (h : d < 10) : (Char.ofNat (48 + d)).toNat = 48 + d := by
  interval_cases d <;> rfl

/-- Every character `natDecimal` emits is a decimal digit. -/
theorem natDecimal_all_digits (n : Nat) : ∀ c ∈ natDecimal n, isDigitChar c = true := by
  induction n using Nat.strong_induction_on with
  | _ n ih =>
    rw [natDecimal]
    split
    · next h =>
      intro c hc
      simp only [List.mem_singleton] at hc
      subst hc
      simp [isDigitChar, toNat_digit_char n h]
      omega
    · next h =>
      intro c hc
      rcases List.mem_append.1 hc with hc | hc
      · exact ih (n / 10) (Nat.div_lt_self (by omega) (by omega)) c hc
      · simp only [List.mem_singleton] at hc
        subst hc
        have hh : (Char.ofNat (48 + n % 10)).toNat = 48 + n % 10 :=
          toNat_digit_char _ (by omega)
        simp [isDigitChar, hh]
        omega

/-- `natDecimal` always emits at least one character. -/
theorem natDecimal_ne_nil (n : Nat) : natDecimal n ≠ [] := by
  rw [natDecimal]
  split
  · simp
  · simp

/-- Value of the digit fold over `natDecimal n`. -/
theorem foldl_natDecimal (n : Nat) : ∀ acc : Nat,
    (natDecimal n).foldl (fun a c => a * 10 + (c.toNat - 48)) acc =
      acc * 10 ^ (natDecimal n).length + n := by
  induction n using Nat.strong_induction_on with
  | _ n ih =>
    intro acc
    rw [natDecimal]
    split
    · next h => simp [toNat_digit_char n h]
    · next h =>
      have hd : n / 10 < n := Nat.div_lt_self (by omega) (by omega)
      rw [List.foldl_append, ih (n / 10) hd acc]
      simp only [List.foldl_cons, List.foldl_nil, List.length_append,
        List.length_singleton]
      have hmod : n % 10 < 10 := Nat.mod_lt n (by omega)
      rw [toNat_digit_char (n % 10) hmod]
      have h48 : 48 + n % 10 - 48 = n % 10 := by omega
      rw [h48, pow_succ, ← mul_assoc]
      generalize acc * 10 ^ (natDecimal (n / 10)).length = D
      omega

/-- A digit character is not stream whitespace. -/
theorem not_space_of_digit (c : Char) (h : isDigitChar c = true) :
    isStreamSpace c = false := by
  have hb : 48 ≤ c.toNat ∧ c.toNat ≤ 57 := by simpa [isDigitChar] using h
  simp [isStreamSpace]
  omega

/-- `readDigits` over a list of digit characters consumes everything and folds
up its decimal value. -/
theorem readDigits_digits (l : List Char) :
    ∀ acc cnt : Nat, (∀ c ∈ l, isDigitChar c = true) →
    readDigits acc cnt l = (l.foldl (fun a c => a * 10 + (c.toNat - 48)) acc, cnt + l.length) := by
  induction l with
  | nil => intro acc cnt _; simp [readDigits]
  | cons c cs ih =>
    intro acc cnt h
    simp only [readDigits, h c (by simp), if_pos]
    rw [ih _ _ (fun c hc => h c (by simp [hc]))]
    simp only [List.foldl_cons, List.length_cons, Prod.mk.injEq]
    exact ⟨by trivial, by omega⟩

/-- The characters of a freshly built string. -/
theorem data_mk (l : List Char) : (String.mk l).data = l := rfl

/-- `readDigits` started empty on `natDecimal m` reads back `m`. -/
theorem natDecimal_value (m : Nat) :
    readDigits 0 0 (natDecimal m) = (m, (natDecimal m).length) := by
  rw [readDigits_digits _ 0 0 (natDecimal_all_digits m), foldl_natDecimal]
  simp

/-- The length of `natDecimal` is never zero. -/
theorem natDecimal_length_ne_zero (m : Nat) : (natDecimal m).length ≠ 0 := by
  intro h
  exact natDecimal_ne_nil m (List.length_eq_zero.1 h)

/-- `clampInt` is the identity inside `int`'s range. -/
theorem clampInt_eq (v : Int) (h1 : intMin ≤ v) (h2 : v ≤ intMax) : clampInt v = v := by
  rw [clampInt, if_neg (by omega), if_neg (by omega)]

/-- `operator>>` recovers exactly the integer `operator<<` printed, for every
value in `int`'s range. -/
theorem parse_intToString (v : Int) (h1 : intMin ≤ v) (h2 : v ≤ intMax) :
    parseIntStream (intToString v) = v := by
  by_cases hv : v < 0
  · have hm : ((-v).toNat : Int) = -v := Int.toNat_of_nonneg (by omega)
    simp only [intToString, if_pos hv, parseIntStream, data_mk]
    rw [List.dropWhile_cons, if_neg (by decide)]
    have hsign : signSplit ('-' :: natDecimal (-v).toNat) = (-1, natDecimal (-v).toNat) := by
      simp [signSplit]
    rw [hsign, parseIntAfterSign]
    simp only [natDecimal_value]
    rw [if_neg (natDecimal_length_ne_zero (-v).toNat)]
    have hval : (-1 : Int) * (((-v).toNat : Nat) : Int) = v := by rw [hm]; ring
    rw [hval, clampInt_eq v h1 h2]
  · have hm : (v.toNat : Int) = v := Int.toNat_of_nonneg (by omega)
    have hdig := natDecimal_all_digits v.toNat
    obtain ⟨c, cs, hcons⟩ : ∃ c cs, natDecimal v.toNat = c :: cs := by
      cases hh : natDecimal v.toNat with
      | nil => exact absurd hh (natDecimal_ne_nil _)
      | cons c cs => exact ⟨c, cs, rfl⟩
    have hc : isDigitChar c = true := hdig c (by rw [hcons]; simp)
    have hcb : 48 ≤ c.toNat ∧ c.toNat ≤ 57 := by simpa [isDigitChar] using hc
    have hneg : ¬ (c = '-') := by
      intro hcc
      subst hcc
      exact absurd hcb.1 (by decide)
    have hpos : ¬ (c = '+') := by
      intro hcc
      subst hcc
      exact absurd hcb.1 (by decide)
    simp only [intToString, if_neg hv, parseIntStream, data_mk, hcons]
    rw [List.dropWhile_cons, if_neg (by simp [not_space_of_digit c hc])]
    have hsign : signSplit (c :: cs) = (1, c :: cs) := by
      simp [signSplit, if_neg hneg, if_neg hpos]
    rw [hsign, parseIntAfterSign]
    simp only [← hcons, natDecimal_value]
    rw [if_neg (natDecimal_length_ne_zero v.toNat)]
    have hval : (1 : Int) * ((v.toNat : Nat) : Int) = v := by rw [hm]; ring
    rw [hval, clampInt_eq v h1 h2]

/-- The converter recovers a value from its own text form, under
`valueRoundTrips`. -/
theorem fromString_toString (τ : Ty) (v : τ.denote) (h : valueRoundTrips τ v) :
    (MetaConverter.FromString τ (MetaConverter.ToString τ v).2).2 = v := by
  cases τ with
  | tstr => exact h
  | tint => exact parse_intToString v h.1 h.2
  | tbool => cases v <;> rfl

/-! The claims. -/

/-- C1, counterexample: registering "count" twice does NOT make `getProperty`
resolve to the most recent entry — `std::unordered_map::insert` keeps the
existing entry, so the first registration wins. -/
theorem C1_counterexample :
    (dupRegistry.getProperty "count").map MetaEntry.description = some "first" ∧
    (dupRegistry.getProperty "count").map MetaEntry.description ≠ some "second" := by
  refine ⟨rfl, by decide⟩

/-- C1 (amended): registering a property under a name whose hash already has
an entry in the registry's own table leaves the registry entirely unchanged
(first write wins), so a subsequent `getProperty` still resolves to the
originally registered entry. -/
theorem C1_reregister_keeps_first {σ : Type} (r : MetaBuilder σ)
    (name description : String) (editorType : PropertyEditorType) (τ : Ty)
    (getter : σ → τ.denote) (setter : Option (τ.denote → σ → σ))
    (h : (mapFind (hashName name) r.properties).isSome = true) :
    r.addProperty name description editorType τ getter setter = r ∧
    (r.addProperty name description editorType τ getter setter).getProperty name =
      r.getProperty name := by
  obtain ⟨props, bases⟩ := r
  simp only [MetaBuilder.properties] at h
  have heq : MetaBuilder.addProperty (.mk props bases) name description editorType τ getter
      setter = .mk props bases := by
    simp [MetaBuilder.addProperty, mapInsert, h]
  exact ⟨heq, by rw [heq]⟩

/-- C1, witness: re-registering "count" on the demo `Obj` registry is a
no-op. -/
theorem C1_witness :
    objProperties.addProperty "count" "other" .Integer .tint (fun s => s.m_count) none
      = objProperties := by
  have h := C1_reregister_keeps_first objProperties "count" "other" .Integer .tint
    (fun s => s.m_count) none (by decide)
  exact h.1

/-- C2, counterexample: "acb" and "abc" are distinct names with colliding
hashes; no entry named "acb" exists anywhere on the registry, yet
`getProperty "acb"` returns the entry registered under "abc". -/
theorem C2_counterexample :
    ("acb" : String) ≠ "abc" ∧
    hashName "acb" = hashName "abc" ∧
    visibleName abcRegistry "acb" = false ∧
    (abcRegistry.getProperty "acb").map MetaEntry.name = some "abc" := by
  refine ⟨by decide, by decide, by decide, rfl⟩

/-- C2 (amended): `getProperty` compares names by `hashName` alone — two names
with equal hashes resolve to the same result on every registry (so a hash
collision is treated as name equality, and not-found is guaranteed only for
names whose hash is absent). -/
theorem C2_lookup_by_hash {σ : Type} (r : MetaBuilder σ) (a b : String)
    (h : hashName a = hashName b) : r.getProperty a = r.getProperty b :=
  getProperty_ext r a b h

/-- C2, witness: on the concrete registry, "acb" resolves exactly like
"abc". -/
theorem C2_witness : abcRegistry.getProperty "acb" = abcRegistry.getProperty "abc" :=
  C2_lookup_by_hash abcRegistry "acb" "abc" (by decide)

/-- C3, counterexample: "abc" does not parse as an `int`, yet `set` on the
read-write int property "count" returns `true` and overwrites the stored 7
with the stream's fallback value 0. -/
theorem C3_counterexample :
    metaSet objProperties ⟨"obj1", 7⟩ "count" "abc" = (true, ⟨"obj1", 0⟩) := by
  rfl

/-- C3 (amended): the converter reports success on every input
(`FromString` returns `true` unconditionally), so `set` on a resolved
read-write property always returns `true` and stores whatever value the
stream produced — unparseable numeric text mutates the property to the
fallback value instead of being rejected. -/
theorem C3_set_parses_unconditionally :
    (∀ (τ : Ty) (text : String), (MetaConverter.FromString τ text).1 = true) ∧
    (∀ (σ : Type) (r : MetaBuilder σ) (s : σ) (name text : String) (e : MetaEntry σ)
      (st : e.prop.1.denote → σ → σ),
      r.getProperty name = some e → e.prop.2.setter = some st →
      metaSet r s name text = (true, st (MetaConverter.FromString e.prop.1 text).2 s)) := by
  refine ⟨fromString_fst, ?_⟩
  intro σ r s name text e st hget hst
  simp only [metaSet, hget, MetaEntry.setValue, Invoker.set, hst]
  rw [if_pos (fromString_fst _ _)]

/-- C3, witness: setting "count" to the unparseable text "nope" succeeds and
stores 0. -/
theorem C3_witness :
    metaSet objProperties ⟨"obj1", 7⟩ "count" "nope" = (true, ⟨"obj1", 0⟩) := by
  have h := (C3_set_parses_unconditionally).2 ObjState objProperties ⟨"obj1", 7⟩ "count" "nope"
    ⟨"count", "count description", .Integer, ⟨.tint, fun s => s.m_count,
      some fun v s => { s with m_count := v }⟩⟩
    (fun v s => { s with m_count := v }) rfl rfl
  rw [h]
  rfl

/-- C4, counterexample: for the read-write string property "name" and the
value "a b" (whose text form is "a b"), `set` succeeds but stores only the
first whitespace-delimited token "a", so the subsequent `get` returns "a",
which differs from `toString("a b")`. -/
theorem C4_counterexample :
    (MetaConverter.ToString .tstr "a b").2 = "a b" ∧
    metaSet rwNameRegistry ⟨"x", 0⟩ "name" "a b" = (true, ⟨"a", 0⟩) ∧
    metaGet rwNameRegistry ⟨"a", 0⟩ "name" "" = (true, "a", ⟨"a", 0⟩) ∧
    ("a" : String) ≠ "a b" := by
  refine ⟨rfl, by decide, by decide, by decide⟩

/-- C4 (amended): for every registered read-write property whose accessor
pair is a lawful field (reading back what was stored), `set(P.name,
toString(v))` succeeds and a subsequent `get(P.name)` returns a text equal to
`toString(v)` — for int-typed properties for every value in `int`'s range and
for bool-typed properties always, but for string-typed properties only when
the value equals its own first whitespace-delimited token. -/
theorem C4_round_trip {σ : Type} (r : MetaBuilder σ) (s : σ) (name out : String)
    (e : MetaEntry σ) (st : e.prop.1.denote → σ → σ) (v : e.prop.1.denote)
    (hget : r.getProperty name = some e) (hst : e.prop.2.setter = some st)
    (hlens : ∀ x t, e.prop.2.getter (st x t) = x)
    (hv : valueRoundTrips e.prop.1 v) :
    metaSet r s name (MetaConverter.ToString e.prop.1 v).2 = (true, st v s) ∧
    metaGet r (st v s) name out =
      (true, (MetaConverter.ToString e.prop.1 v).2, st v s) := by
  constructor
  · simp only [metaSet, hget, MetaEntry.setValue, Invoker.set, hst]
    rw [if_pos (fromString_fst _ _), fromString_toString _ v hv]
  · simp only [metaGet, hget, MetaEntry.getValue, Invoker.get, hlens v s]
    rw [toString_fst]

/-- C4, witness: the demo scenario — setting "count" to the text of 50
succeeds and reading it back returns "50". -/
theorem C4_witness :
    metaSet objProperties ⟨"obj1", 0⟩ "count" "50" = (true, ⟨"obj1", 50⟩) ∧
    metaGet objProperties ⟨"obj1", 50⟩ "count" "" = (true, "50", ⟨"obj1", 50⟩) := by
  have h := C4_round_trip objProperties ⟨"obj1", 0⟩ "count" ""
    ⟨"count", "count description", .Integer, ⟨.tint, fun s => s.m_count,
      some fun v s => { s with m_count := v }⟩⟩
    (fun v s => { s with m_count := v }) 50 rfl rfl (fun x t => rfl)
    ⟨by decide, by decide⟩
  have hts : (MetaConverter.ToString .tint 50).2 = "50" := by
    simp [MetaConverter.ToString, intToString, natDecimal]
  rw [hts] at h
  exact h

/-- C5: `getProperty` resolves self entries first (an own entry under the
name's hash wins no matter what the bases hold), then the bases in declaration
order, depth-first — a base that resolves the name preempts all later bases,
and a base that does not is skipped. -/
theorem C5_resolution_order :
    (∀ (σ : Type) (props : List (Nat × MetaEntry σ)) (bases : BaseList σ)
        (n : String) (e : MetaEntry σ),
      mapFind (hashName n) props = some e →
      MetaBuilder.getProperty (.mk props bases) n = some e) ∧
    (∀ (σ : Type) (props : List (Nat × MetaEntry σ)) (b : MetaBuilder σ)
        (rest : BaseList σ) (n : String) (e : MetaEntry σ),
      mapFind (hashName n) props = none →
      b.getProperty n = some e →
      MetaBuilder.getProperty (.mk props (.cons b rest)) n = some e) ∧
    (∀ (σ : Type) (props : List (Nat × MetaEntry σ)) (b : MetaBuilder σ)
        (rest : BaseList σ) (n : String),
      mapFind (hashName n) props = none →
      b.getProperty n = none →
      MetaBuilder.getProperty (.mk props (.cons b rest)) n =
        MetaBuilder.getProperty (.mk props rest) n) := by
  refine ⟨?_, ?_, ?_⟩
  · intro σ props bases n e h
    simp [MetaBuilder.getProperty, h]
  · intro σ props b rest n e h hb
    simp [MetaBuilder.getProperty, getPropertyBases, h, hb]
  · intro σ props b rest n h hb
    simp [MetaBuilder.getProperty, getPropertyBases, h, hb]

/-- C5, witness: on `shadowRegistry`, the own "count" entry shadows both
bases' entries; "name" is absent from the own table and resolves through the
first base; and "visible" skips the first base (which lacks it) and resolves
in the second. -/
theorem C5_witness :
    shadowRegistry.getProperty "count" =
      some ⟨"count", "shadowed count", .Integer,
        ⟨.tint, fun s => s.m_count + 1, none⟩⟩ ∧
    shadowRegistry.getProperty "name" =
      some ⟨"name", "name description", .String,
        ⟨.tstr, fun s => s.m_name, none⟩⟩ ∧
    MetaBuilder.getProperty
        (.mk (MetaBuilder.properties shadowRegistry)
          (.cons objPropertiesOnAnother .nil)) "visible" = none := by
  refine ⟨?_, ?_, ?_⟩
  · exact C5_resolution_order.1 AnotherObjState shadowRegistry.properties
      shadowRegistry.bases "count" _ rfl
  · exact C5_resolution_order.2.1 AnotherObjState shadowRegistry.properties
      objPropertiesOnAnother (.cons anotherObjProperties .nil) "name" _ rfl rfl
  · exact C5_resolution_order.2.2 AnotherObjState shadowRegistry.properties
      objPropertiesOnAnother .nil "visible" rfl rfl

/-- C6: the boolean converter round-trips both values, emits exactly
"true"/"false", parses "true" and "1" as `true`, and parses every other
string as `false`. -/
theorem C6_bool_converter :
    (∀ x : Bool,
      (MetaConverter.FromString .tbool (MetaConverter.ToString .tbool x).2).2 = x) ∧
    (MetaConverter.ToString .tbool true).2 = "true" ∧
    (MetaConverter.ToString .tbool false).2 = "false" ∧
    (MetaConverter.FromString .tbool "true").2 = true ∧
    (MetaConverter.FromString .tbool "1").2 = true ∧
    (∀ s : String, s ≠ "true" → s ≠ "1" →
      (MetaConverter.FromString .tbool s).2 = false) := by
  refine ⟨?_, rfl, rfl, rfl, rfl, ?_⟩
  · intro x
    cases x <;> rfl
  · intro s h1 h2
    show (s == "true" || s == "1") = false
    rw [beq_false_of_ne h1, beq_false_of_ne h2]
    rfl

/-- C6, witness: a string that is neither "true" nor "1" parses as false. -/
theorem C6_witness : (MetaConverter.FromString .tbool "yes").2 = false :=
  C6_bool_converter.2.2.2.2.2 "yes" (by decide) (by decide)

/-- C7: `set` on a property registered without a setter returns `false` and
leaves the state (hence every value a `get` observes) unchanged, and
`isReadOnly` is `true` exactly on such properties — `false` whenever a setter
was supplied. -/
theorem C7_read_only :
    (∀ (σ : Type) (r : MetaBuilder σ) (s : σ) (name text out : String) (e : MetaEntry σ),
      r.getProperty name = some e → e.prop.2.setter = none →
      metaSet r s name text = (false, s) ∧
      metaGet r (metaSet r s name text).2 name out = metaGet r s name out ∧
      e.prop.2.isReadOnly = true) ∧
    (∀ (σ : Type) (τ : Ty) (g : σ → τ.denote) (st : τ.denote → σ → σ),
      TypedProperty.isReadOnly ⟨g, some st⟩ = false) := by
  constructor
  · intro σ r s name text out e hget hst
    have hset : metaSet r s name text = (false, s) := by
      simp only [metaSet, hget, MetaEntry.setValue, Invoker.set, hst]
    refine ⟨hset, by rw [hset], ?_⟩
    simp [TypedProperty.isReadOnly, hst]
  · intro σ τ g st
    rfl

/-- C7, witness: `set` on the read-only "name" property of the demo `Obj`
fails and changes nothing, and the property reports read-only. -/
theorem C7_witness :
    metaSet objProperties ⟨"obj1", 0⟩ "name" "new name" = (false, ⟨"obj1", 0⟩) ∧
    TypedProperty.isReadOnly
      (⟨"name", "name description", PropertyEditorType.String,
        ⟨.tstr, fun s => s.m_name, none⟩⟩ : MetaEntry ObjState).prop.2 = true := by
  have h := C7_read_only.1 ObjState objProperties ⟨"obj1", 0⟩ "name" "new name" ""
    ⟨"name", "name description", .String, ⟨.tstr, fun s => s.m_name, none⟩⟩ rfl rfl
  exact ⟨h.1, h.2.2⟩

/-- C8, counterexample: "cnout" is registered nowhere on the `Obj` registry
(it has no bases), but its hash equals that of "count", so `get` returns
`true` (with count's value) and `set` returns `true` and mutates the
object. -/
theorem C8_counterexample :
    visibleName objProperties "cnout" = false ∧
    hashName "cnout" = hashName "count" ∧
    metaGet objProperties ⟨"obj1", 0⟩ "cnout" "" = (true, "0", ⟨"obj1", 0⟩) ∧
    metaSet objProperties ⟨"obj1", 0⟩ "cnout" "7" = (true, ⟨"obj1", 7⟩) := by
  refine ⟨by decide, by decide, ?_, by decide⟩
  have h0 : intToString 0 = "0" := by simp [intToString, natDecimal]
  have hg : metaGet objProperties ⟨"obj1", 0⟩ "cnout" "" =
      (true, intToString 0, ⟨"obj1", 0⟩) := rfl
  rw [h0] at hg
  exact hg

/-- C8 (amended): for every name whose hash is absent from the registry's own
table and, transitively, from every base's table, `get` and `set` both return
`false`, the out-parameter is untouched and the object state is unchanged.
(A name whose hash collides with a registered one resolves to that entry
instead, as the C8 counterexample shows.) -/
theorem C8_hash_absent_not_found {σ : Type} (r : MetaBuilder σ) (s : σ)
    (n out text : String) (h : hashVisible r (hashName n) = false) :
    metaGet r s n out = (false, out, s) ∧ metaSet r s n text = (false, s) := by
  have hn : r.getProperty n = none := (getProperty_none_iff r n).2 h
  constructor
  · simp [metaGet, hn]
  · simp [metaSet, hn]

/-- C8, witness: "missing" is hash-free on the derived demo registry, so both
calls fail and nothing changes. -/
theorem C8_witness :
    metaGet anotherObjProperties ⟨"a", 0, false⟩ "missing" "" =
      (false, "", ⟨"a", 0, false⟩) ∧
    metaSet anotherObjProperties ⟨"a", 0, false⟩ "missing" "x" =
      (false, ⟨"a", 0, false⟩) :=
  C8_hash_absent_not_found anotherObjProperties ⟨"a", 0, false⟩ "missing" "" "x"
    (by decide)

/-- C9: `getListOfProperties` started on an empty set produces exactly the
names visible on the registry — own entry names together with, recursively,
every base's visible names — and the result holds no duplicate name. -/
theorem C9_list_properties :
    ∀ (σ : Type) (r : MetaBuilder σ),
      (∀ x, x ∈ r.getListOfProperties [] ↔ visibleName r x = true) ∧
      (r.getListOfProperties []).Nodup := by
  intro σ r
  constructor
  · intro x
    rw [mem_getListOfProperties r [] x]
    simp
  · exact nodup_getListOfProperties r [] List.nodup_nil

/-- C10: `get` is observation-only — the state returned by any `get` call is
the input state itself (the dispatch path only ever invokes the registered
`const` getter), so a `get` after another `get` returns exactly what it would
have returned on the original state. -/
theorem C10_get_observation_only :
    ∀ (σ : Type) (r : MetaBuilder σ) (s : σ) (n out n2 out2 : String),
      (metaGet r s n out).2.2 = s ∧
      metaGet r ((metaGet r s n out).2.2) n2 out2 = metaGet r s n2 out2 := by
  intro σ r s n out n2 out2
  have h : (metaGet r s n out).2.2 = s := by
    cases hg : r.getProperty n with
    | none => simp [metaGet, hg]
    | some e => simp [metaGet, hg, MetaEntry.getValue, Invoker.get]
  exact ⟨h, by rw [h]⟩


end meta
